import Mathlib

/-!
Verification of the calico-tigera-operator flow-aggregation spec against the
repository sources.

Part A embeds `libcalico-go/lib/backend/model/policy.go` (the policy key
path-encoding layer).  Go strings are modelled as Lean `String`s; the
character-level helpers work on `List Char` (a Go string's rune sequence —
all characters involved here are ASCII, so rune/byte distinctions do not
matter).

Part B (further below) models the goldmane flow-aggregation engine.  Only its
protobuf interface (`src/unnamed/part_000`) is part of the available sources;
the engine itself is modelled from the design spec, as marked on each
definition.
-/

/-- Modelled from the spec: the name-escaping helper `escapeName` used by the
policy path encoding lives in the repository's key-encoding layer
(`lib/backend/model/keys.go`), which is not among the available sources.  It
makes a policy name usable as a single path segment by replacing every `/`
with the three characters `%2f` (Go: `strings.Replace(name, "/", "%2f", -1)`).
This is the character-level core, scanning left to right. -/
def escapeChars : List Char → List Char
  | [] => []
  | c :: cs => if c = '/' then '%' :: '2' :: 'f' :: escapeChars cs else c :: escapeChars cs

/-- Modelled from the spec: `unescapeName`'s character-level core, the reverse
replacement of `escapeName`'s — every occurrence of `%2f` becomes `/`,
scanning left to right without overlap, as Go's `strings.Replace` does. -/
def unescapeChars : List Char → List Char
  | '%' :: '2' :: 'f' :: cs => '/' :: unescapeChars cs
  | c :: cs => c :: unescapeChars cs
  | [] => []

/-- Go `escapeName` lifted to strings. -/
def escapeName (name : String) : String := ⟨escapeChars name.data⟩

/-- Go `unescapeName` lifted to strings. -/
def unescapeName (name : String) : String := ⟨unescapeChars name.data⟩

/-- Scanner deciding whether the three-character sequence `%2f` occurs
anywhere in a character list (used to state when `unescapeName` inverts
`escapeName`). -/
def has2f : List Char → Bool
  | '%' :: '2' :: 'f' :: _ => true
  | _ :: cs => has2f cs
  | [] => false

/-- Policy names with this prefix are staged rather than enforced
(policy.go, `PolicyNamePrefixStaged`). -/
def PolicyNamePrefixStaged : String := "staged:"

/-- policy.go `PolicyIsStaged`: "returns true if the name of the policy
indicates that it is a staged policy".  The body is hard-coded: "Support for
staged network policy will be added later". -/
def PolicyIsStaged (_name : String) : Bool := false

/-- The `errors.ErrorInsufficientIdentifiers` value returned by
`defaultPath` when a required key field is empty. -/
structure ErrorInsufficientIdentifiers where
  Name : String
deriving DecidableEq

/-- policy.go `PolicyKey`. -/
structure PolicyKey where
  Name : String
  Tier : String
deriving DecidableEq

/-- policy.go `(key PolicyKey) defaultPath()`: rejects an empty tier, then an
empty name, otherwise formats `/calico/v1/policy/tier/%s/policy/%s` with the
raw tier and the escaped name. -/
def PolicyKey.defaultPath (key : PolicyKey) : Except ErrorInsufficientIdentifiers String :=
  if key.Tier = "" then .error ⟨"tier"⟩
  else if key.Name = "" then .error ⟨"name"⟩
  else .ok ("/calico/v1/policy/tier/" ++ key.Tier ++ "/policy/" ++ escapeName key.Name)

/-- policy.go `(key PolicyKey) defaultDeletePath()`: delegates to
`defaultPath`. -/
def PolicyKey.defaultDeletePath (key : PolicyKey) : Except ErrorInsufficientIdentifiers String :=
  key.defaultPath

/-- policy.go `PolicyListOptions`. -/
structure PolicyListOptions where
  Name : String
  Tier : String

/-- Strips the optional leading slash admitted by the `^/?` at the start of
the `matchPolicy` regular expression. -/
def stripLeadSlash : List Char → List Char
  | '/' :: cs => cs
  | cs => cs

/-- Splits a character list at every `/`, the way the slash-separated groups
of the `matchPolicy` regular expression carve up a path. -/
def splitSlash : List Char → List (List Char)
  | [] => [[]]
  | c :: cs =>
    if c = '/' then [] :: splitSlash cs
    else
      match splitSlash cs with
      | [] => [[c]]
      | p :: ps => (c :: p) :: ps

/-- policy.go `matchPolicy = regexp.MustCompile("^/?calico/v1/policy/tier/([^/]+)/policy/([^/]+)$")`,
as a deterministic parser.  Because the pattern is anchored at both ends,
`FindAllStringSubmatch(path, -1)` finds exactly one match iff the whole path
(after an optional leading `/`) splits on `/` into exactly the seven groups
`calico`, `v1`, `policy`, `tier`, a non-empty slash-free tier, `policy`, and a
non-empty slash-free name; the parser returns those two capture groups. -/
def matchPolicyPath (path : String) : Option (String × String) :=
  match splitSlash (stripLeadSlash path.data) with
  | [c1, c2, c3, c4, tier, c5, name] =>
    if c1 = "calico".data ∧ c2 = "v1".data ∧ c3 = "policy".data ∧ c4 = "tier".data ∧
        c5 = "policy".data ∧ tier ≠ [] ∧ name ≠ [] then
      some (⟨tier⟩, ⟨name⟩)
    else none
  | _ => none

/-- policy.go `(options PolicyListOptions) KeyFromDefaultPath(path)`: applies
the `matchPolicy` regular expression, un-escapes the captured name, filters
against any tier/name constraint carried by the list options, and returns the
reconstructed key (`none` models the Go `nil` returns). -/
def PolicyListOptions.KeyFromDefaultPath (options : PolicyListOptions) (path : String) :
    Option PolicyKey :=
  match matchPolicyPath path with
  | none => none
  | some (tier, rawName) =>
    let name := unescapeName rawName
    if options.Tier ≠ "" ∧ tier ≠ options.Tier then none
    else if options.Name ≠ "" ∧ name ≠ options.Name then none
    else some { Tier := tier, Name := name }

/-! ### Character-level lemmas for the path encoding -/

/-- Escaping never leaves a slash in the output. -/
theorem escapeChars_no_slash (n : List Char) : '/' ∉ escapeChars n := by
  induction n with
  | nil => simp [escapeChars]
  | cons c cs ih =>
    by_cases hc : c = '/' <;> simp [escapeChars, hc, ih]
    intro h
    exact absurd h.symm hc

/-- Escaping a non-empty name yields a non-empty segment. -/
theorem escapeChars_ne_nil {n : List Char} (h : n ≠ []) : escapeChars n ≠ [] := by
  cases n with
  | nil => exact absurd rfl h
  | cons c cs =>
    by_cases hc : c = '/' <;> simp [escapeChars, hc]

/-- If the head does not open a `%2f` occurrence, `unescapeChars` copies it. -/
theorem unescapeChars_cons {c : Char} {cs : List Char}
    (h : ¬(c = '%' ∧ cs.take 2 = ['2', 'f'])) :
    unescapeChars (c :: cs) = c :: unescapeChars cs := by
  rw [unescapeChars.eq_def]
  split
  · next rest heq =>
    rw [List.cons.injEq] at heq
    obtain ⟨hc, hcs⟩ := heq
    exact absurd ⟨hc, by rw [hcs]; rfl⟩ h
  · next c' cs' _ _ heq =>
    rw [List.cons.injEq] at heq
    rw [heq.1, heq.2]
  · next heq => exact absurd heq (by simp)

/-- A list whose tail is scanned clean is clean from the head on only if the
head opens no occurrence, so the scan propagates to the tail. -/
theorem has2f_cons_false {c : Char} {cs : List Char} (h : has2f (c :: cs) = false) :
    has2f cs = false := by
  rw [has2f.eq_def] at h
  revert h
  split
  · intro h; cases h
  · next c' cs' _ _ heq =>
    rw [List.cons.injEq] at heq
    rw [heq.2]
    exact id
  · next heq => cases heq

/-- Un-escaping inverts escaping on every name that does not already contain
the literal three-character sequence `%2f`. -/
theorem unescapeChars_escapeChars (n : List Char) (h : has2f n = false) :
    unescapeChars (escapeChars n) = n := by
  induction n with
  | nil => rfl
  | cons c cs ih =>
    have hcs : has2f cs = false := has2f_cons_false h
    by_cases hc : c = '/'
    · subst hc
      show unescapeChars ('%' :: '2' :: 'f' :: escapeChars cs) = '/' :: cs
      rw [show unescapeChars ('%' :: '2' :: 'f' :: escapeChars cs)
            = '/' :: unescapeChars (escapeChars cs) from rfl, ih hcs]
    · rw [show escapeChars (c :: cs) = c :: escapeChars cs by simp [escapeChars, hc]]
      rw [unescapeChars_cons ?_, ih hcs]
      rintro ⟨hpc, htake⟩
      subst hpc
      -- the escaped tail starts with `2f`, so `cs` itself starts with `2f`
      -- and the original list opens with `%2f`, contradicting the scan.
      cases cs with
      | nil => simp [escapeChars] at htake
      | cons d ds =>
        by_cases hd : d = '/'
        · simp [escapeChars, hd] at htake
        · simp only [escapeChars, if_neg hd] at htake
          cases ds with
          | nil =>
            simp [escapeChars] at htake
          | cons e es =>
            by_cases he : e = '/'
            · simp [escapeChars, hd, he] at htake
            · simp only [escapeChars, if_neg he, List.take, List.cons.injEq] at htake
              rw [show has2f ('%' :: d :: e :: es) = true by
                    rw [htake.1, htake.2.1]; rfl] at h
              cases h

/-- Splitting a segment-plus-separator prefix peels off the segment. -/
theorem splitSlash_append_slash {a : List Char} (h : '/' ∉ a) (r : List Char) :
    splitSlash (a ++ '/' :: r) = a :: splitSlash r := by
  induction a with
  | nil => simp [splitSlash]
  | cons c cs ih =>
    have hc : c ≠ '/' := fun e => h (by simp [e])
    have h' : '/' ∉ cs := fun m => h (List.mem_cons_of_mem _ m)
    simp only [List.cons_append, splitSlash, if_neg hc, List.append_eq, ih h']

/-- A slash-free list splits into the single segment it is. -/
theorem splitSlash_no_slash {a : List Char} (h : '/' ∉ a) : splitSlash a = [a] := by
  induction a with
  | nil => rfl
  | cons c cs ih =>
    have hc : c ≠ '/' := fun e => h (by simp [e])
    have h' : '/' ∉ cs := fun m => h (List.mem_cons_of_mem _ m)
    simp only [splitSlash, if_neg hc, ih h']

/-- A string is empty exactly when its character list is. -/
theorem string_data_eq_nil {s : String} (h : s.data = []) : s = "" := by
  cases s
  simp_all [String.data]

/-! ### Claim theorems for the policy path layer -/

/-- C8: `PolicyIsStaged` returns `false` for every input name, including
names that begin with the staged-policy prefix `staged:` — staged-policy
detection is a documented no-op. -/
theorem policyIsStaged_always_false (name : String) :
    PolicyIsStaged name = false ∧
      PolicyIsStaged (PolicyNamePrefixStaged ++ name) = false :=
  ⟨rfl, rfl⟩

/-- C10: `defaultPath` reports the missing `tier` identifier whenever `Tier`
is empty, reports the missing `name` identifier whenever `Tier` is non-empty
and `Name` is empty, and otherwise succeeds with
`/calico/v1/policy/tier/<Tier>/policy/<escaped Name>`; `defaultDeletePath`
coincides with `defaultPath` on every key. -/
theorem defaultPath_spec (key : PolicyKey) :
    (key.Tier = "" → key.defaultPath = .error ⟨"tier"⟩) ∧
    (key.Tier ≠ "" → key.Name = "" → key.defaultPath = .error ⟨"name"⟩) ∧
    (key.Tier ≠ "" → key.Name ≠ "" →
      key.defaultPath =
        .ok ("/calico/v1/policy/tier/" ++ key.Tier ++ "/policy/" ++ escapeName key.Name)) ∧
    key.defaultDeletePath = key.defaultPath := by
  refine ⟨fun ht => ?_, fun ht hn => ?_, fun ht hn => ?_, rfl⟩
  · simp [PolicyKey.defaultPath, ht]
  · simp [PolicyKey.defaultPath, ht, hn]
  · simp [PolicyKey.defaultPath, ht, hn]

/-- Witness for C10 at concrete keys: the error cases and the success case,
with the success string fully evaluated (the name's slash escaped). -/
theorem defaultPath_spec_witness :
    (PolicyKey.mk "a/b" "t1").defaultPath =
        Except.ok "/calico/v1/policy/tier/t1/policy/a%2fb" ∧
      (PolicyKey.mk "n" "").defaultPath = Except.error ⟨"tier"⟩ ∧
      (PolicyKey.mk "" "t1").defaultPath = Except.error ⟨"name"⟩ :=
  ⟨((defaultPath_spec ⟨"a/b", "t1"⟩).2.2.1 (by decide) (by decide)).trans
      (congrArg Except.ok (by decide)),
    (defaultPath_spec ⟨"n", ""⟩).1 rfl,
    (defaultPath_spec ⟨"", "t1"⟩).2.1 (by decide) rfl⟩

/-- C9, counterexample: the key with `Name = "a%2fb"`, `Tier = "t1"` has a
non-empty tier without `/` and a non-empty name, yet encoding then decoding
under unconstrained list options returns the different key
`Name = "a/b"`: `escapeName` only rewrites `/` to `%2f`, so a name that
already contains the literal `%2f` is not recovered by `unescapeName`. -/
theorem roundtrip_counterexample :
    (PolicyKey.mk "a%2fb" "t1").Tier ≠ "" ∧
      (PolicyKey.mk "a%2fb" "t1").Name ≠ "" ∧
      '/' ∉ (PolicyKey.mk "a%2fb" "t1").Tier.data ∧
      (PolicyKey.mk "a%2fb" "t1").defaultPath =
        Except.ok "/calico/v1/policy/tier/t1/policy/a%2fb" ∧
      PolicyListOptions.KeyFromDefaultPath ⟨"", ""⟩ "/calico/v1/policy/tier/t1/policy/a%2fb" =
        some (PolicyKey.mk "a/b" "t1") ∧
      PolicyKey.mk "a/b" "t1" ≠ PolicyKey.mk "a%2fb" "t1" := by
  refine ⟨by decide, by decide, by decide, rfl, ?_, by decide⟩
  decide

/-- C9, amended: for every `PolicyKey` whose `Tier` and `Name` are non-empty,
whose `Tier` contains no `/`, and whose `Name` contains no literal `%2f`,
decoding the path produced by `defaultPath` under unconstrained list options
returns the same key — `unescapeName` inverts `escapeName` on such names. -/
theorem roundtrip_amended (key : PolicyKey) (htier : key.Tier ≠ "") (hname : key.Name ≠ "")
    (hslash : '/' ∉ key.Tier.data) (h2f : has2f key.Name.data = false) :
    key.defaultPath.map (fun p => PolicyListOptions.KeyFromDefaultPath ⟨"", ""⟩ p) =
      Except.ok (some key) := by
  have hpath : key.defaultPath
      = .ok ("/calico/v1/policy/tier/" ++ key.Tier ++ "/policy/" ++ escapeName key.Name) := by
    simp [PolicyKey.defaultPath, htier, hname]
  have hdata : ("/calico/v1/policy/tier/" ++ key.Tier ++ "/policy/" ++ escapeName key.Name).data
      = '/' :: ("calico".data ++ '/' :: ("v1".data ++ '/' :: ("policy".data ++ '/' ::
        ("tier".data ++ '/' :: (key.Tier.data ++ '/' :: ("policy".data ++ '/' ::
          escapeChars key.Name.data)))))) := by
    have h1 : "/calico/v1/policy/tier/".data
        = '/' :: ("calico".data ++ '/' :: ("v1".data ++ '/' :: ("policy".data ++ '/' ::
          ("tier".data ++ ['/'])))) := by decide
    have h2 : "/policy/".data = '/' :: ("policy".data ++ ['/']) := by decide
    rw [String.data_append, String.data_append, String.data_append, h1, h2]
    simp [escapeName, List.append_assoc]
  have htierData : key.Tier.data ≠ [] := fun e => htier (string_data_eq_nil e)
  have hnameData : escapeChars key.Name.data ≠ [] :=
    escapeChars_ne_nil (fun e => hname (string_data_eq_nil e))
  have hsplit : splitSlash (stripLeadSlash
      ("/calico/v1/policy/tier/" ++ key.Tier ++ "/policy/" ++ escapeName key.Name).data)
      = ["calico".data, "v1".data, "policy".data, "tier".data, key.Tier.data,
         "policy".data, escapeChars key.Name.data] := by
    rw [hdata]
    rw [show ∀ x : List Char, stripLeadSlash ('/' :: x) = x from fun _ => rfl]
    rw [splitSlash_append_slash (by decide), splitSlash_append_slash (by decide),
        splitSlash_append_slash (by decide), splitSlash_append_slash (by decide),
        splitSlash_append_slash hslash, splitSlash_append_slash (by decide),
        splitSlash_no_slash (escapeChars_no_slash _)]
  rw [hpath]
  show Except.ok (PolicyListOptions.KeyFromDefaultPath ⟨"", ""⟩ _) = _
  rw [PolicyListOptions.KeyFromDefaultPath, matchPolicyPath, hsplit]
  simp only [if_pos (⟨rfl, rfl, rfl, rfl, rfl, htierData, hnameData⟩ :
    "calico".data = "calico".data ∧ "v1".data = "v1".data ∧ "policy".data = "policy".data ∧
    "tier".data = "tier".data ∧ "policy".data = "policy".data ∧
    key.Tier.data ≠ [] ∧ escapeChars key.Name.data ≠ [])]
  have hinv : unescapeName ⟨escapeChars key.Name.data⟩ = key.Name := by
    show (⟨unescapeChars (escapeChars key.Name.data)⟩ : String) = key.Name
    rw [unescapeChars_escapeChars _ h2f]
  simp [hinv, htierData, hnameData]

/-- Witness for the amended C9 at the concrete key `Name = "a/b"`,
`Tier = "t1"`, whose name needs escaping. -/
theorem roundtrip_amended_witness :
    (PolicyKey.mk "a/b" "t1").defaultPath.map
        (fun p => PolicyListOptions.KeyFromDefaultPath ⟨"", ""⟩ p) =
      Except.ok (some (PolicyKey.mk "a/b" "t1")) :=
  roundtrip_amended ⟨"a/b", "t1"⟩ (by decide) (by decide) (by decide) (by decide)

/-!
### Part B: the goldmane flow aggregation engine

Only the protobuf interface of the engine (`src/unnamed/part_000`) is among
the available sources; every operational definition below is therefore
modelled from the design spec (sections 3-4: data model, deduplication
cache, aggregation store, rollup query engine, stream publisher), with the
proto file fixing the shapes of `FlowKey`, `Flow`, `PolicyHit` and the
validation rules on the requests.  Go `int64` values are modelled as `Int`
(the statistics counters never approach the 64-bit range in this model, so
wraparound is not modelled).
-/

namespace Goldmane

/-- proto `PolicyKind`: the policy resource kinds appearing in a policy
trace. -/
inductive PolicyKind
  | kindUnspecified
  | calicoNetworkPolicy
  | calicoGlobalNetworkPolicy
  | calicoStagedNetworkPolicy
  | calicoStagedGlobalNetworkPolicy
  | stagedKubernetesNetworkPolicy
  | networkPolicy
  | adminNetworkPolicy
  | baselineAdminNetworkPolicy
  | profile
  | endOfTier
deriving DecidableEq, Fintype

/-- proto `PolicyHit`: one policy rule traversed by a flow.  Following the
spec's design note, the `trigger` back-reference (only meaningful for
end-of-tier hits) is modelled as an optional index into the surrounding
ordered `PolicyHit` sequence rather than as a nested value.  The proto field
`namespace` is spelled `policyNamespace` (`namespace` is a Lean keyword). -/
structure PolicyHit where
  kind : PolicyKind
  policyNamespace : String
  name : String
  tier : String
  action : String
  policyIndex : Int
  ruleIndex : Int
  trigger : Option Nat
deriving DecidableEq

/-- proto `PolicyTrace`: the enforced and pending policy-hit lists. -/
structure PolicyTrace where
  enforcedPolicies : List PolicyHit
  pendingPolicies : List PolicyHit
deriving DecidableEq

/-- proto `FlowKey`: the identity of an aggregation series.  Equality is
full structural equality including the policy trace (spec section 3). -/
structure FlowKey where
  sourceName : String
  sourceNamespace : String
  sourceType : String
  destName : String
  destNamespace : String
  destType : String
  destPort : Int
  destServiceName : String
  destServiceNamespace : String
  destServicePortName : String
  destServicePort : Int
  proto : String
  reporter : String
  action : String
  policies : PolicyTrace
deriving DecidableEq

/-- The seven statistics counters carried by a `Flow` / accumulated in a
`Bucket` (proto `Flow` fields 6-12). -/
structure Stats where
  packetsIn : Int
  packetsOut : Int
  bytesIn : Int
  bytesOut : Int
  numConnectionsStarted : Int
  numConnectionsCompleted : Int
  numConnectionsLive : Int
deriving DecidableEq

/-- Modelled from the spec: `MergeUpdate` "adds `stats` into the existing
Bucket's counters" — component-wise addition of all counters. -/
def Stats.add (a b : Stats) : Stats :=
  { packetsIn := a.packetsIn + b.packetsIn
    packetsOut := a.packetsOut + b.packetsOut
    bytesIn := a.bytesIn + b.bytesIn
    bytesOut := a.bytesOut + b.bytesOut
    numConnectionsStarted := a.numConnectionsStarted + b.numConnectionsStarted
    numConnectionsCompleted := a.numConnectionsCompleted + b.numConnectionsCompleted
    numConnectionsLive := a.numConnectionsLive + b.numConnectionsLive }

/-- Modelled from the spec: a `Bucket` is one fixed-width 15-second
accumulation period for one `FlowKey` — its start timestamp plus the
counters (the end timestamp is always `startTime + 15` and is left
implicit). -/
structure Bucket where
  startTime : Int
  stats : Stats
deriving DecidableEq

/-- proto `Flow`: the externally visible aggregate — a key, a
`StartTime`/`EndTime` pair and merged statistics.  The label-intersection
fields of the proto are not part of the spec's data model and are
omitted. -/
structure Flow where
  key : FlowKey
  startTime : Int
  endTime : Int
  stats : Stats
deriving DecidableEq

/-- Modelled from the spec: the Aggregation Store — for each flow key, an
ordered sequence of per-bucket accumulators (an association list keyed by
`FlowKey`). -/
abbrev AggStore := List (FlowKey × List Bucket)

/-- Modelled from the spec: merging an update into one series — add into the
bucket with the matching start time, or create that bucket if absent. -/
def mergeIntoSeries : List Bucket → Int → Stats → List Bucket
  | [], t, s => [⟨t, s⟩]
  | b :: rest, t, s =>
    if b.startTime = t then { b with stats := b.stats.add s } :: rest
    else b :: mergeIntoSeries rest t s

/-- Association-list update for `mergeUpdate`, once the bucket start is known
to be aligned: creates the series if absent. -/
def mergeUpdateAligned : AggStore → FlowKey → Int → Stats → AggStore
  | [], k, t, s => [(k, [⟨t, s⟩])]
  | e :: rest, k, t, s =>
    if e.1 = k then (e.1, mergeIntoSeries e.2 t s) :: rest
    else e :: mergeUpdateAligned rest k t s

/-- Modelled from the spec: `MergeUpdate(flowKey, bucketStart, stats)` —
creates the series and/or the bucket as needed and adds the counters; a
bucket start not aligned to the 15-second grid is rejected (the update is
dropped, per the spec's propagation policy for malformed updates). -/
def mergeUpdate (st : AggStore) (k : FlowKey) (bucketStart : Int) (s : Stats) : AggStore :=
  if bucketStart % 15 = 0 then mergeUpdateAligned st k bucketStart s else st

/-- Modelled from the spec: the Deduplication Cache remembers the
(flow key, bucket start, payload) triples already admitted within the
bounded memory horizon; the payload hash is modelled as the payload itself
(a perfect hash).  Expiry of old entries is not modelled — the claims below
concern behavior within the horizon. -/
abbrev DedupCache := List (FlowKey × Int × Stats)

/-- Modelled from the spec: `Admit(flowKey, bucketStart, updatePayloadHash)`
returns true (and records the triple) the first time a triple is seen,
false for an exact repeat still inside the horizon. -/
def Admit (c : DedupCache) (k : FlowKey) (bucketStart : Int) (payload : Stats) :
    Bool × DedupCache :=
  if (k, bucketStart, payload) ∈ c then (false, c)
  else (true, (k, bucketStart, payload) :: c)

/-- proto `FlowUpdate`, reduced to the fields the ingestion path consumes:
one flow observation at 15-second granularity. -/
structure FlowUpdate where
  key : FlowKey
  bucketStart : Int
  stats : Stats
deriving DecidableEq

/-- The two shared mutable structures of the ingestion path (spec section
5): the Aggregation Store and the Deduplication Cache. -/
structure IngestState where
  store : AggStore
  cache : DedupCache
deriving DecidableEq

/-- Modelled from the spec's data flow: an arriving update passes the
Deduplication Cache first and is merged into the Aggregation Store only when
admitted. -/
def ingest (st : IngestState) (u : FlowUpdate) : IngestState :=
  let r := Admit st.cache u.key u.bucketStart u.stats
  if r.1 then ⟨mergeUpdate st.store u.key u.bucketStart u.stats, r.2⟩
  else ⟨st.store, r.2⟩

/-- Modelled from the spec: a `Filter` is a conjunction of optional equality
predicates over `FlowKey` fields, each independently optional (absent =
unconstrained).  The optional `PolicyMatch` sub-predicate of the proto is not
referenced by any claim under verification and is omitted. -/
structure Filter where
  sourceName : Option String := none
  sourceNamespace : Option String := none
  destName : Option String := none
  destNamespace : Option String := none
  protocol : Option String := none
  destPort : Option Int := none
  action : Option String := none
deriving DecidableEq

/-- Modelled from the spec: evaluation of a `Filter` against a `FlowKey` —
the conjunction of its present equality predicates. -/
def matchesFilter (flt : Filter) (k : FlowKey) : Bool :=
  flt.sourceName.all (fun v => k.sourceName == v) &&
  flt.sourceNamespace.all (fun v => k.sourceNamespace == v) &&
  flt.destName.all (fun v => k.destName == v) &&
  flt.destNamespace.all (fun v => k.destNamespace == v) &&
  flt.protocol.all (fun v => k.proto == v) &&
  flt.destPort.all (fun v => k.destPort == v) &&
  flt.action.all (fun v => k.action == v)

/-- Modelled from the spec: `Scan(timeRangeLow, timeRangeHigh, filter)` —
every series whose key satisfies the filter, restricted to the buckets whose
start lies in `[lo, hi)`; series with no bucket in range are not reported. -/
def scan (st : AggStore) (lo hi : Int) (flt : Filter) : List (FlowKey × List Bucket) :=
  st.filterMap (fun e =>
    if matchesFilter flt e.1 then
      let bs := e.2.filter (fun b => decide (lo ≤ b.startTime) && decide (b.startTime < hi))
      if bs.isEmpty then none else some (e.1, bs)
    else none)

/-- Modelled from the spec: the starting Flow of a rollup window — the key,
`StartTime = windowStart`, `EndTime = windowStart + width` (proto `Flow`:
"EndTime ... is always exactly one aggregation interval after the start
time"), and zeroed counters. -/
def emptyWindowFlow (k : FlowKey) (windowStart width : Int) : Flow :=
  { key := k, startTime := windowStart, endTime := windowStart + width,
    stats := ⟨0, 0, 0, 0, 0, 0, 0⟩ }

/-- Modelled from the spec: folding one more bucket into a rollup — the
packet/byte/connections-started/connections-completed counters are summed,
while the live-connection count is the snapshot of the most recent
contributing bucket ("takes a snapshot of connection-live count as of the
rolled-up window's end"). -/
def addBucketToFlow (f : Flow) (b : Bucket) : Flow :=
  { f with stats :=
    { packetsIn := f.stats.packetsIn + b.stats.packetsIn
      packetsOut := f.stats.packetsOut + b.stats.packetsOut
      bytesIn := f.stats.bytesIn + b.stats.bytesIn
      bytesOut := f.stats.bytesOut + b.stats.bytesOut
      numConnectionsStarted := f.stats.numConnectionsStarted + b.stats.numConnectionsStarted
      numConnectionsCompleted :=
        f.stats.numConnectionsCompleted + b.stats.numConnectionsCompleted
      numConnectionsLive := b.stats.numConnectionsLive } }

/-- Modelled from the spec: `Rollup(Series, window)` — merge the buckets of
one window, in bucket order, into a single `Flow` of the requested width. -/
def rollup (k : FlowKey) (windowStart width : Int) (bs : List Bucket) : Flow :=
  bs.foldl addBucketToFlow (emptyWindowFlow k windowStart width)

/-- Modelled from the spec: the index of the aggregation window (aligned to
`timeRangeLow`) containing a bucket start (Go integer division). -/
def windowIndex (lo interval t : Int) : Int :=
  (t - lo) / interval

/-- Modelled from the spec, List step 3: partition a series' buckets into
consecutive windows of the requested width aligned to `timeRangeLow` and
roll each non-empty window up into one `Flow`; empty windows are omitted. -/
def rollupSeries (lo interval : Int) (k : FlowKey) (bs : List Bucket) : List Flow :=
  ((bs.map (fun b => windowIndex lo interval b.startTime)).dedup).map
    (fun w => rollup k (lo + w * interval) interval
      (bs.filter (fun b => windowIndex lo interval b.startTime == w)))

/-- Modelled from the spec: scan-then-rollup, the result set of a `List`
call before sorting and pagination. -/
def rollupStore (st : AggStore) (lo hi interval : Int) (flt : Filter) : List Flow :=
  ((scan st lo hi flt).map (fun e => rollupSeries lo interval e.1 e.2)).flatten

/-- Encoding of the `trigger` back-reference index into `ℕ` for the
lexicographic key order (`none` sorts first). -/
def triggerEnc : Option Nat → Nat
  | none => 0
  | some i => i + 1

/-- The lexicographic encoding target of one `PolicyHit`. -/
abbrev HitEnc :=
  Nat ×ₗ String ×ₗ String ×ₗ String ×ₗ String ×ₗ Int ×ₗ Int ×ₗ Nat

/-- Field-by-field lexicographic encoding of a `PolicyHit`. -/
def PolicyHit.enc (h : PolicyHit) : HitEnc :=
  toLex (h.kind.toCtorIdx, toLex (h.policyNamespace, toLex (h.name, toLex (h.tier,
    toLex (h.action, toLex (h.policyIndex, toLex (h.ruleIndex, triggerEnc h.trigger)))))))

/-- The lexicographic encoding target of a `PolicyTrace`. -/
abbrev TraceEnc := List HitEnc ×ₗ List HitEnc

/-- Lexicographic encoding of a `PolicyTrace`: the enforced list, then the
pending list, hits compared field by field. -/
def PolicyTrace.enc (tr : PolicyTrace) : TraceEnc :=
  toLex (tr.enforcedPolicies.map PolicyHit.enc, tr.pendingPolicies.map PolicyHit.enc)

/-- The lexicographic encoding target of a `FlowKey`. -/
abbrev KeyEnc :=
  String ×ₗ String ×ₗ String ×ₗ String ×ₗ String ×ₗ String ×ₗ Int ×ₗ String ×ₗ
    String ×ₗ String ×ₗ Int ×ₗ String ×ₗ String ×ₗ String ×ₗ TraceEnc

/-- Modelled from the spec: "FlowKey lexicographic order" — the fields of
the key compared in declaration order, the policy trace last. -/
def FlowKey.enc (k : FlowKey) : KeyEnc :=
  toLex (k.sourceName, toLex (k.sourceNamespace, toLex (k.sourceType, toLex (k.destName,
    toLex (k.destNamespace, toLex (k.destType, toLex (k.destPort, toLex (k.destServiceName,
      toLex (k.destServiceNamespace, toLex (k.destServicePortName, toLex (k.destServicePort,
        toLex (k.proto, toLex (k.reporter, toLex (k.action, k.policies.enc))))))))))))))

/-- Shortcut instance so that order-instance search on the deep encoding
types stays shallow. -/
instance : LinearOrder HitEnc := inferInstance

/-- Shortcut instance for the trace encoding. -/
instance : LinearOrder TraceEnc := inferInstance

/-- Shortcut instance for the key encoding. -/
instance : LinearOrder KeyEnc := inferInstance

/-- Shortcut instance for the full sort encoding. -/
instance : LinearOrder (Int ×ₗ KeyEnc) := inferInstance

/-- Modelled from the spec, List step 5 (default sort): descending
`StartTime` first (encoded as ascending negated start time), then the
`FlowKey` lexicographic order as the final deterministic tie-break. -/
def Flow.sortEnc (f : Flow) : Int ×ₗ KeyEnc :=
  toLex (-f.startTime, f.key.enc)

/-- The boolean comparison the default sort uses. -/
def defaultSortLE (a b : Flow) : Bool :=
  decide (a.sortEnc ≤ b.sortEnc)

/-- Modelled from the spec: the default sort of a `List` result. -/
def defaultSort (l : List Flow) : List Flow :=
  l.mergeSort defaultSortLE

/-- Modelled from the spec, List step 6: page `P` (1-indexed) of size `S`
returns elements `[(P-1)*S, P*S)`;  a request beyond the end is an empty
page. -/
def paginate {α : Type} (l : List α) (pageNumber pageSize : Nat) : List α :=
  (l.drop ((pageNumber - 1) * pageSize)).take pageSize

/-- The query-boundary validation errors of the spec's error taxonomy. -/
inductive GoldmaneError
  | errorInvalidInterval
  | errorInvalidPageSize
deriving DecidableEq

/-- Modelled from the spec: `List` — validate that the aggregation interval
is a positive multiple of 15 (else `ErrorInvalidInterval`) and that the page
size is positive (else `ErrorInvalidPageSize`) before producing any result;
then scan, roll up, sort, paginate. -/
def listCall (st : AggStore) (lo hi : Int) (flt : Filter)
    (aggregationInterval pageNumber pageSize : Int) : Except GoldmaneError (List Flow) :=
  if 0 < aggregationInterval ∧ aggregationInterval % 15 = 0 then
    if pageSize ≤ 0 then .error .errorInvalidPageSize
    else .ok (paginate (defaultSort (rollupStore st lo hi aggregationInterval flt))
      pageNumber.toNat pageSize.toNat)
  else .error .errorInvalidInterval

/-- The aggregation window a stream tick at wall-clock `now` publishes.
Modelled from the proto comment on `FlowStreamRequest.aggregation_interval`
(src/unnamed/part_000, lines 65-73): "the server should send updates
covering the range [now-2*AggregationInterval, now-AggregationInterval]". -/
def streamWindow (now interval : Int) : Int × Int :=
  (now - 2 * interval, now - interval)

/-- Modelled from the spec: one 15-second tick of the Stream Publisher —
roll up, for every series matching the filter, exactly the published window
`streamWindow now interval`; series with no bucket there emit nothing. -/
def streamTick (st : AggStore) (flt : Filter) (interval now : Int) : List Flow :=
  (scan st (streamWindow now interval).1 (streamWindow now interval).2 flt).map
    (fun e => rollup e.1 (streamWindow now interval).1 interval e.2)

/-- Modelled from the spec: `Stream` — the aggregation interval must be
exactly 15 seconds (else `ErrorInvalidInterval`, before any results); the
per-tick output is `streamTick`. -/
def streamCall (st : AggStore) (flt : Filter) (aggregationInterval now : Int) :
    Except GoldmaneError (List Flow) :=
  if aggregationInterval = 15 then .ok (streamTick st flt aggregationInterval now)
  else .error .errorInvalidInterval

/-! ### Rollup lemmas -/

/-- Folding buckets into a flow leaves the key and window unchanged, adds
each summed counter onto the accumulator, and keeps the live-connection
snapshot of the most recent bucket (or the accumulator's when none). -/
theorem foldl_addBucketToFlow (bs : List Bucket) (f : Flow) :
    bs.foldl addBucketToFlow f =
      { key := f.key, startTime := f.startTime, endTime := f.endTime,
        stats :=
          { packetsIn := f.stats.packetsIn + (bs.map (fun b => b.stats.packetsIn)).sum
            packetsOut := f.stats.packetsOut + (bs.map (fun b => b.stats.packetsOut)).sum
            bytesIn := f.stats.bytesIn + (bs.map (fun b => b.stats.bytesIn)).sum
            bytesOut := f.stats.bytesOut + (bs.map (fun b => b.stats.bytesOut)).sum
            numConnectionsStarted := f.stats.numConnectionsStarted +
              (bs.map (fun b => b.stats.numConnectionsStarted)).sum
            numConnectionsCompleted := f.stats.numConnectionsCompleted +
              (bs.map (fun b => b.stats.numConnectionsCompleted)).sum
            numConnectionsLive :=
              (bs.map (fun b => b.stats.numConnectionsLive)).getLastD
                f.stats.numConnectionsLive } } := by
  induction bs generalizing f with
  | nil => simp
  | cons b bs ih =>
    rw [List.foldl_cons, ih]
    simp only [addBucketToFlow, List.map_cons, List.sum_cons, List.getLastD_cons]
    rw [Flow.mk.injEq]
    refine ⟨rfl, rfl, rfl, ?_⟩
    rw [Stats.mk.injEq]
    refine ⟨by omega, by omega, by omega, by omega, by omega, by omega, rfl⟩

/-- The last element of a mapped list, via `getLastD`. -/
theorem map_getLastD_of_ne_nil {a b : Type} (g : a → b) {l : List a} (h : l ≠ []) (d : b) :
    (l.map g).getLastD d = g (l.getLast h) := by
  induction l generalizing d with
  | nil => exact absurd rfl h
  | cons x t ih =>
    cases t with
    | nil => simp
    | cons y t' =>
      rw [List.map_cons, List.getLastD_cons, ih (by simp) (g x)]
      rfl

/-- C1: a rollup window over buckets b1..bk has EndTime = StartTime + width,
sums each of the six cumulative counters across the buckets, and takes the
live-connection count of the last contributing bucket. -/
theorem rollup_window_correct (k : FlowKey) (windowStart width : Int) (bs : List Bucket)
    (hbs : bs ≠ []) :
    (rollup k windowStart width bs).startTime = windowStart ∧
    (rollup k windowStart width bs).endTime = (rollup k windowStart width bs).startTime + width ∧
    (rollup k windowStart width bs).stats.packetsIn
      = (bs.map (fun b => b.stats.packetsIn)).sum ∧
    (rollup k windowStart width bs).stats.packetsOut
      = (bs.map (fun b => b.stats.packetsOut)).sum ∧
    (rollup k windowStart width bs).stats.bytesIn
      = (bs.map (fun b => b.stats.bytesIn)).sum ∧
    (rollup k windowStart width bs).stats.bytesOut
      = (bs.map (fun b => b.stats.bytesOut)).sum ∧
    (rollup k windowStart width bs).stats.numConnectionsStarted
      = (bs.map (fun b => b.stats.numConnectionsStarted)).sum ∧
    (rollup k windowStart width bs).stats.numConnectionsCompleted
      = (bs.map (fun b => b.stats.numConnectionsCompleted)).sum ∧
    (rollup k windowStart width bs).stats.numConnectionsLive
      = (bs.getLast hbs).stats.numConnectionsLive := by
  rw [rollup, foldl_addBucketToFlow]
  refine ⟨rfl, rfl, by simp [emptyWindowFlow], by simp [emptyWindowFlow],
    by simp [emptyWindowFlow], by simp [emptyWindowFlow], by simp [emptyWindowFlow],
    by simp [emptyWindowFlow], ?_⟩
  simp only [emptyWindowFlow]
  rw [map_getLastD_of_ne_nil _ hbs]

/-- A concrete flow key used by the witnesses. -/
def sampleKey : FlowKey :=
  { sourceName := "client", sourceNamespace := "ns1", sourceType := "wep",
    destName := "server", destNamespace := "ns2", destType := "wep",
    destPort := 443, destServiceName := "", destServiceNamespace := "",
    destServicePortName := "", destServicePort := 0, proto := "TCP",
    reporter := "src", action := "Allow", policies := ⟨[], []⟩ }

/-- Witness for C1 at a two-bucket window: counters are summed and the live
count is the second bucket's. -/
theorem rollup_window_correct_witness :
    (rollup sampleKey 0 30 [⟨0, ⟨1, 2, 3, 4, 5, 6, 7⟩⟩, ⟨15, ⟨10, 20, 30, 40, 50, 60, 70⟩⟩]).startTime = 0 ∧
    (rollup sampleKey 0 30 [⟨0, ⟨1, 2, 3, 4, 5, 6, 7⟩⟩, ⟨15, ⟨10, 20, 30, 40, 50, 60, 70⟩⟩]).endTime
      = (rollup sampleKey 0 30 [⟨0, ⟨1, 2, 3, 4, 5, 6, 7⟩⟩, ⟨15, ⟨10, 20, 30, 40, 50, 60, 70⟩⟩]).startTime + 30 ∧
    (rollup sampleKey 0 30 [⟨0, ⟨1, 2, 3, 4, 5, 6, 7⟩⟩, ⟨15, ⟨10, 20, 30, 40, 50, 60, 70⟩⟩]).stats.packetsIn = 11 ∧
    (rollup sampleKey 0 30 [⟨0, ⟨1, 2, 3, 4, 5, 6, 7⟩⟩, ⟨15, ⟨10, 20, 30, 40, 50, 60, 70⟩⟩]).stats.packetsOut = 22 ∧
    (rollup sampleKey 0 30 [⟨0, ⟨1, 2, 3, 4, 5, 6, 7⟩⟩, ⟨15, ⟨10, 20, 30, 40, 50, 60, 70⟩⟩]).stats.bytesIn = 33 ∧
    (rollup sampleKey 0 30 [⟨0, ⟨1, 2, 3, 4, 5, 6, 7⟩⟩, ⟨15, ⟨10, 20, 30, 40, 50, 60, 70⟩⟩]).stats.bytesOut = 44 ∧
    (rollup sampleKey 0 30 [⟨0, ⟨1, 2, 3, 4, 5, 6, 7⟩⟩, ⟨15, ⟨10, 20, 30, 40, 50, 60, 70⟩⟩]).stats.numConnectionsStarted = 55 ∧
    (rollup sampleKey 0 30 [⟨0, ⟨1, 2, 3, 4, 5, 6, 7⟩⟩, ⟨15, ⟨10, 20, 30, 40, 50, 60, 70⟩⟩]).stats.numConnectionsCompleted = 66 ∧
    (rollup sampleKey 0 30 [⟨0, ⟨1, 2, 3, 4, 5, 6, 7⟩⟩, ⟨15, ⟨10, 20, 30, 40, 50, 60, 70⟩⟩]).stats.numConnectionsLive = 70 :=
  rollup_window_correct sampleKey 0 30
    [⟨0, ⟨1, 2, 3, 4, 5, 6, 7⟩⟩, ⟨15, ⟨10, 20, 30, 40, 50, 60, 70⟩⟩] (by decide)

/-! ### Commutativity of merges to the same bucket -/

/-- Component-wise addition of the counters commutes. -/
theorem stats_add_comm (a b : Stats) : a.add b = b.add a := by
  simp only [Stats.add, Stats.mk.injEq]
  omega

/-- Adding two updates into the same counters lands on the same totals in
either order. -/
theorem stats_add_right_comm (a b c : Stats) : (a.add b).add c = (a.add c).add b := by
  simp only [Stats.add, Stats.mk.injEq]
  omega

/-- Two merges into the same bucket of one series commute. -/
theorem mergeIntoSeries_swap (bs : List Bucket) (t : Int) (s₁ s₂ : Stats) :
    mergeIntoSeries (mergeIntoSeries bs t s₁) t s₂
      = mergeIntoSeries (mergeIntoSeries bs t s₂) t s₁ := by
  induction bs with
  | nil => simp [mergeIntoSeries, stats_add_comm s₁ s₂]
  | cons b rest ih =>
    by_cases hb : b.startTime = t
    · simp [mergeIntoSeries, hb, stats_add_right_comm]
    · simp [mergeIntoSeries, hb, ih]

/-- Two merges for the same key and bucket commute on the association
list. -/
theorem mergeUpdateAligned_swap (st : AggStore) (k : FlowKey) (t : Int) (s₁ s₂ : Stats) :
    mergeUpdateAligned (mergeUpdateAligned st k t s₁) k t s₂
      = mergeUpdateAligned (mergeUpdateAligned st k t s₂) k t s₁ := by
  induction st with
  | nil => simp [mergeUpdateAligned, mergeIntoSeries, stats_add_comm s₁ s₂]
  | cons e rest ih =>
    by_cases he : e.1 = k
    · simp [mergeUpdateAligned, he, mergeIntoSeries_swap]
    · simp [mergeUpdateAligned, he, ih]

/-- `MergeUpdate` calls targeting the same key and bucket commute. -/
theorem mergeUpdate_swap (st : AggStore) (k : FlowKey) (t : Int) (s₁ s₂ : Stats) :
    mergeUpdate (mergeUpdate st k t s₁) k t s₂ = mergeUpdate (mergeUpdate st k t s₂) k t s₁ := by
  by_cases ht : t % 15 = 0 <;> simp [mergeUpdate, ht, mergeUpdateAligned_swap]

/-- C2: applying any permutation of a fixed multiset of `MergeUpdate` calls
targeting one key and one bucket yields the same store, hence identical
summed counters in that bucket. -/
theorem merge_same_bucket_commutes (st : AggStore) (k : FlowKey) (t : Int)
    {l₁ l₂ : List Stats} (hp : l₁.Perm l₂) :
    l₁.foldl (fun acc s => mergeUpdate acc k t s) st
      = l₂.foldl (fun acc s => mergeUpdate acc k t s) st :=
  hp.foldl_eq' (fun x _ y _ z => mergeUpdate_swap z k t x y) st

/-- Witness for C2: two concrete updates to the same bucket, applied in both
orders. -/
theorem merge_same_bucket_commutes_witness :
    ([⟨1, 0, 0, 0, 0, 0, 0⟩, ⟨0, 2, 0, 0, 0, 0, 0⟩] : List Stats).Perm
        [⟨0, 2, 0, 0, 0, 0, 0⟩, ⟨1, 0, 0, 0, 0, 0, 0⟩] ∧
      ([⟨1, 0, 0, 0, 0, 0, 0⟩, ⟨0, 2, 0, 0, 0, 0, 0⟩] : List Stats).foldl
          (fun acc s => mergeUpdate acc sampleKey 15 s) []
        = ([⟨0, 2, 0, 0, 0, 0, 0⟩, ⟨1, 0, 0, 0, 0, 0, 0⟩] : List Stats).foldl
          (fun acc s => mergeUpdate acc sampleKey 15 s) [] :=
  ⟨by decide, merge_same_bucket_commutes [] sampleKey 15 (by decide)⟩

/-! ### Deduplication -/

/-- C5: `Admit` accepts a (key, bucket start, payload) triple the first time
it is seen, rejects an exact repeat within the horizon, and consequently
re-ingesting an identical update after it was admitted leaves the
Aggregation Store (indeed the whole ingest state) unchanged. -/
theorem dedup_idempotent (st : IngestState) (u : FlowUpdate) :
    ((u.key, u.bucketStart, u.stats) ∉ st.cache →
      (Admit st.cache u.key u.bucketStart u.stats).1 = true) ∧
    (Admit (Admit st.cache u.key u.bucketStart u.stats).2 u.key u.bucketStart u.stats).1
      = false ∧
    ingest (ingest st u) u = ingest st u := by
  refine ⟨fun hmem => by simp [Admit, hmem], ?_, ?_⟩
  · by_cases hmem : (u.key, u.bucketStart, u.stats) ∈ st.cache <;> simp [Admit, hmem]
  · by_cases hmem : (u.key, u.bucketStart, u.stats) ∈ st.cache <;>
      simp [ingest, Admit, hmem]

/-- Witness for C5: a fresh triple is admitted into an empty cache, and
ingesting the same update twice equals ingesting it once. -/
theorem dedup_idempotent_witness :
    (Admit [] sampleKey 15 ⟨1, 0, 0, 0, 0, 0, 0⟩).1 = true ∧
      ingest (ingest ⟨[], []⟩ ⟨sampleKey, 15, ⟨1, 0, 0, 0, 0, 0, 0⟩⟩)
          ⟨sampleKey, 15, ⟨1, 0, 0, 0, 0, 0, 0⟩⟩
        = ingest ⟨[], []⟩ ⟨sampleKey, 15, ⟨1, 0, 0, 0, 0, 0, 0⟩⟩ :=
  ⟨(dedup_idempotent ⟨[], []⟩ ⟨sampleKey, 15, ⟨1, 0, 0, 0, 0, 0, 0⟩⟩).1 (by decide),
    (dedup_idempotent ⟨[], []⟩ ⟨sampleKey, 15, ⟨1, 0, 0, 0, 0, 0, 0⟩⟩).2.2⟩

/-! ### Pagination -/

/-- C3: for a positive page size `S`, page `P` (1-indexed) holds exactly the
elements at indices `[(P-1)*S, P*S)` of the underlying list; a page past the
end is empty; and concatenating pages `1 .. ceil(total/S)` reproduces the
list exactly. -/
theorem paginate_spec {α : Type} (l : List α) (S : Nat) (hS : 0 < S) :
    (∀ P i : Nat, (paginate l P S)[i]? = if i < S then l[(P - 1) * S + i]? else none) ∧
    (∀ P : Nat, l.length ≤ (P - 1) * S → paginate l P S = []) ∧
    ((List.range ((l.length + S - 1) / S)).map (fun j => paginate l (j + 1) S)).flatten
      = l := by
  refine ⟨fun P i => ?_, fun P h => ?_, ?_⟩
  · simp [paginate, List.getElem?_take, List.getElem?_drop]
  · simp [paginate, List.drop_eq_nil_of_le h]
  · have key : ∀ k : Nat, ((List.range k).map (fun j => paginate l (j + 1) S)).flatten
        = l.take (k * S) := by
      intro k
      induction k with
      | zero => simp
      | succ k ih =>
        rw [List.range_succ, List.map_append, List.flatten_append, ih]
        simp [paginate]
        rw [← List.take_add]
        congr 1
        ring
    rw [key]
    have hlen : l.length ≤ ((l.length + S - 1) / S) * S := by
      by_contra hcon
      push_neg at hcon
      have h2 : ((l.length + S - 1) / S + 1) * S ≤ l.length + S - 1 := by
        rw [Nat.succ_mul]
        omega
      have h3 : (l.length + S - 1) / S + 1 ≤ (l.length + S - 1) / S :=
        (Nat.le_div_iff_mul_le hS).2 h2
      omega
    exact List.take_of_length_le hlen

/-- Witness for C3 on a three-element list with page size 2: page 2 holds
the last element, page 5 is empty, and pages 1..2 concatenate back to the
list. -/
theorem paginate_spec_witness :
    paginate ([10, 20, 30] : List Int) 5 2 = [] ∧
      ((List.range ((([10, 20, 30] : List Int).length + 2 - 1) / 2)).map
          (fun j => paginate ([10, 20, 30] : List Int) (j + 1) 2)).flatten
        = [10, 20, 30] ∧
      (paginate ([10, 20, 30] : List Int) 2 2)[0]? = some 30 :=
  ⟨(paginate_spec [10, 20, 30] 2 (by decide)).2.1 5 (by decide),
    (paginate_spec [10, 20, 30] 2 (by decide)).2.2,
    ((paginate_spec [10, 20, 30] 2 (by decide)).1 2 0).trans (by decide)⟩

/-! ### Boundary validation -/

/-- C4: `List` rejects an aggregation interval that is not a positive
multiple of 15 with `ErrorInvalidInterval` and a non-positive page size with
`ErrorInvalidPageSize`, and `Stream` rejects any interval other than 15 with
`ErrorInvalidInterval` — in every case the error is the whole result, so it
precedes any flows. -/
theorem validation_errors (st : AggStore) (lo hi : Int) (flt : Filter)
    (interval pageNumber pageSize now : Int) :
    (¬(0 < interval ∧ interval % 15 = 0) →
      listCall st lo hi flt interval pageNumber pageSize
        = .error .errorInvalidInterval) ∧
    ((0 < interval ∧ interval % 15 = 0) → pageSize ≤ 0 →
      listCall st lo hi flt interval pageNumber pageSize
        = .error .errorInvalidPageSize) ∧
    (interval ≠ 15 → streamCall st flt interval now = .error .errorInvalidInterval) := by
  refine ⟨fun h => ?_, fun h1 h2 => ?_, fun h => ?_⟩
  · rw [listCall, if_neg h]
  · rw [listCall, if_pos h1, if_pos h2]
  · rw [streamCall, if_neg h]

/-- Witness for C4: interval 10 and page size 0 are rejected by `List`, and
interval 30 by `Stream`, on a concrete store. -/
theorem validation_errors_witness :
    listCall [] 0 100 {} 10 1 5 = Except.error GoldmaneError.errorInvalidInterval ∧
      listCall [] 0 100 {} 15 1 0 = Except.error GoldmaneError.errorInvalidPageSize ∧
      streamCall [] {} 30 60 = Except.error GoldmaneError.errorInvalidInterval :=
  ⟨(validation_errors [] 0 100 {} 10 1 5 60).1 (by decide),
    (validation_errors [] 0 100 {} 15 1 0 60).2.1 ⟨by decide, by decide⟩ (by decide),
    (validation_errors [] 0 100 {} 30 1 5 60).2.2 (by decide)⟩

/-! ### The published stream window -/

/-- C7, counterexample: at `now = 60` with the mandatory 15-second interval,
the published window is `[30, 45]` — it ends at `now - interval = 45`, not
at `now - 2*interval = 30` as the claim states; a concrete tick emits a flow
with `EndTime = 45`. -/
theorem stream_emission_counterexample :
    (streamWindow 60 15).2 = 45 ∧
      streamTick [(sampleKey, [⟨30, ⟨1, 0, 0, 0, 0, 0, 2⟩⟩])] {} 15 60
        = [⟨sampleKey, 30, 45, ⟨1, 0, 0, 0, 0, 0, 2⟩⟩] ∧
      (45 : Int) ≠ 60 - 2 * 15 := by
  refine ⟨by decide, ?_, by decide⟩
  decide

/-- C7, amended: on every tick at wall-clock `now`, for every series
matching the filter, the Publisher emits exactly the full window starting at
`now - 2*interval` and ending at `now - interval` (two intervals behind
wall-clock at its start); every emitted flow spans that whole window, never
a partial one. -/
theorem stream_emission_amended (st : AggStore) (flt : Filter) (interval now : Int) :
    streamWindow now interval = (now - 2 * interval, now - interval) ∧
    (streamWindow now interval).2 - (streamWindow now interval).1 = interval ∧
    ∀ f ∈ streamTick st flt interval now,
      f.startTime = now - 2 * interval ∧ f.endTime = now - interval := by
  refine ⟨rfl, by simp only [streamWindow]; omega, fun f hf => ?_⟩
  simp only [streamTick, List.mem_map] at hf
  obtain ⟨e, he, rfl⟩ := hf
  rw [rollup, foldl_addBucketToFlow]
  refine ⟨rfl, ?_⟩
  show (streamWindow now interval).1 + interval = now - interval
  simp only [streamWindow]
  omega

/-- Witness for the amended C7: the flow emitted by a concrete tick spans
exactly `[30, 45]` at `now = 60`. -/
theorem stream_emission_amended_witness :
    (Flow.mk sampleKey 30 45 ⟨1, 0, 0, 0, 0, 0, 2⟩).startTime = 60 - 2 * 15 ∧
      (Flow.mk sampleKey 30 45 ⟨1, 0, 0, 0, 0, 0, 2⟩).endTime = 60 - 15 :=
  (stream_emission_amended [(sampleKey, [⟨30, ⟨1, 0, 0, 0, 0, 0, 2⟩⟩])] {} 15 60).2.2
    ⟨sampleKey, 30, 45, ⟨1, 0, 0, 0, 0, 0, 2⟩⟩ (by decide)

/-! ### Deterministic default sort -/

/-- The constructor index distinguishes the policy kinds. -/
theorem policyKind_toCtorIdx_inj : ∀ a b : PolicyKind, a.toCtorIdx = b.toCtorIdx → a = b := by
  decide

/-- The trigger encoding distinguishes `none` from every index. -/
theorem triggerEnc_inj : ∀ a b : Option Nat, triggerEnc a = triggerEnc b → a = b := by
  intro a b h
  cases a <;> cases b <;> simp only [triggerEnc, Option.some.injEq] at h ⊢ <;> omega

/-- The field-by-field encoding of a policy hit is injective. -/
theorem policyHit_enc_inj : Function.Injective PolicyHit.enc := by
  intro h1 h2 h
  simp only [PolicyHit.enc, toLex_inj, Prod.mk.injEq] at h
  cases h1
  cases h2
  simp only [PolicyHit.mk.injEq]
  exact ⟨policyKind_toCtorIdx_inj _ _ h.1, h.2.1, h.2.2.1, h.2.2.2.1, h.2.2.2.2.1,
    h.2.2.2.2.2.1, h.2.2.2.2.2.2.1, triggerEnc_inj _ _ h.2.2.2.2.2.2.2⟩

/-- The encoding of a policy trace is injective. -/
theorem policyTrace_enc_inj : Function.Injective PolicyTrace.enc := by
  intro t1 t2 h
  simp only [PolicyTrace.enc, toLex_inj, Prod.mk.injEq] at h
  cases t1
  cases t2
  simp only [PolicyTrace.mk.injEq]
  exact ⟨List.map_injective_iff.2 policyHit_enc_inj h.1,
    List.map_injective_iff.2 policyHit_enc_inj h.2⟩

/-- The lexicographic encoding of a flow key is injective: equal encodings
mean equal keys. -/
theorem flowKey_enc_inj : Function.Injective FlowKey.enc := by
  intro k1 k2 h
  simp only [FlowKey.enc, toLex_inj, Prod.mk.injEq] at h
  cases k1
  cases k2
  simp only [FlowKey.mk.injEq]
  exact ⟨h.1, h.2.1, h.2.2.1, h.2.2.2.1, h.2.2.2.2.1, h.2.2.2.2.2.1, h.2.2.2.2.2.2.1,
    h.2.2.2.2.2.2.2.1, h.2.2.2.2.2.2.2.2.1, h.2.2.2.2.2.2.2.2.2.1,
    h.2.2.2.2.2.2.2.2.2.2.1, h.2.2.2.2.2.2.2.2.2.2.2.1, h.2.2.2.2.2.2.2.2.2.2.2.2.1,
    h.2.2.2.2.2.2.2.2.2.2.2.2.2.1,
    policyTrace_enc_inj h.2.2.2.2.2.2.2.2.2.2.2.2.2.2⟩

/-- Equal sort encodings force equal start time and equal key. -/
theorem sortEnc_eq {a b : Flow} (h : a.sortEnc = b.sortEnc) :
    a.startTime = b.startTime ∧ a.key = b.key := by
  unfold Flow.sortEnc at h
  rw [toLex_inj, Prod.mk.injEq] at h
  exact ⟨neg_inj.1 h.1, flowKey_enc_inj h.2⟩

/-- The default comparison is transitive. -/
theorem defaultSortLE_trans (a b c : Flow) (hab : defaultSortLE a b = true)
    (hbc : defaultSortLE b c = true) : defaultSortLE a c = true := by
  have h1 : a.sortEnc ≤ b.sortEnc := of_decide_eq_true hab
  have h2 : b.sortEnc ≤ c.sortEnc := of_decide_eq_true hbc
  have h3 := le_trans h1 h2
  exact decide_eq_true h3

/-- The default comparison is total. -/
theorem defaultSortLE_total (a b : Flow) :
    (defaultSortLE a b || defaultSortLE b a) = true := by
  rcases le_total a.sortEnc b.sortEnc with h | h
  · rw [show defaultSortLE a b = true from decide_eq_true h, Bool.true_or]
  · rw [show defaultSortLE b a = true from decide_eq_true h, Bool.or_true]

/-- Two sorted lists that are permutations of each other coincide, provided
the order is antisymmetric on the elements involved. -/
theorem sorted_perm_eq {α : Type} {le : α → α → Bool} :
    ∀ {l₁ l₂ : List α},
      (∀ a ∈ l₁, ∀ b ∈ l₁, le a b = true → le b a = true → a = b) →
      l₁.Perm l₂ →
      List.Pairwise (fun a b => le a b = true) l₁ →
      List.Pairwise (fun a b => le a b = true) l₂ → l₁ = l₂ := by
  intro l₁
  induction l₁ with
  | nil =>
    intro l₂ _ hp _ _
    exact hp.nil_eq
  | cons a t ih =>
    intro l₂ anti hp hs₁ hs₂
    have ha2 : a ∈ l₂ := hp.subset (List.mem_cons_self _ _)
    obtain ⟨u, v, rfl⟩ := List.append_of_mem ha2
    have hp' : t.Perm (u ++ v) := (List.perm_cons a).1 (hp.trans List.perm_middle)
    obtain ⟨hall, ht⟩ := List.pairwise_cons.1 hs₁
    have anti' : ∀ x ∈ t, ∀ y ∈ t, le x y = true → le y x = true → x = y :=
      fun x hx y hy => anti x (List.mem_cons_of_mem _ hx) y (List.mem_cons_of_mem _ hy)
    obtain rfl : t = u ++ v :=
      ih anti' hp' ht (hs₂.sublist (by simp))
    have hxa : ∀ x ∈ u, x = a := by
      intro x hx
      refine anti x (List.mem_cons_of_mem _ (by simp [hx])) a (List.mem_cons_self _ _)
        ?_ ?_
      · exact (List.pairwise_append.1 hs₂).2.2 x hx a (List.mem_cons_self _ _)
      · exact hall x (by simp [hx])
    have key : ∀ (u' : List α), (∀ x ∈ u', x = a) → a :: (u' ++ v) = u' ++ a :: v := by
      intro u' hu'
      induction u' with
      | nil => rfl
      | cons b u'' ihu =>
        rw [show b = a from hu' b (by simp)]
        simp only [List.cons_append]
        exact congrArg (List.cons a) (ihu fun x hx => hu' x (by simp [hx]))
    exact key u hxa

/-- C6: the default `List` ordering — descending start time, flow key
lexicographic order as the final tie-break — is deterministic: whenever two
datasets hold the same flows (in any internal arrangement) and no two
distinct flows share both start time and key, sorting them gives the
identical list, which is ordered by the comparison. -/
theorem default_sort_deterministic (l₁ l₂ : List Flow) (hp : l₁.Perm l₂)
    (hties : ∀ a ∈ l₁, ∀ b ∈ l₁, a.startTime = b.startTime → a.key = b.key → a = b) :
    defaultSort l₁ = defaultSort l₂ ∧
      List.Pairwise (fun a b => defaultSortLE a b = true) (defaultSort l₁) := by
  have hs₁ : List.Pairwise (fun a b => defaultSortLE a b = true) (defaultSort l₁) :=
    List.sorted_mergeSort defaultSortLE_trans defaultSortLE_total l₁
  have hs₂ : List.Pairwise (fun a b => defaultSortLE a b = true) (defaultSort l₂) :=
    List.sorted_mergeSort defaultSortLE_trans defaultSortLE_total l₂
  refine ⟨?_, hs₁⟩
  have hperm : (defaultSort l₁).Perm (defaultSort l₂) :=
    ((l₁.mergeSort_perm defaultSortLE).trans hp).trans
      (l₂.mergeSort_perm defaultSortLE).symm
  refine sorted_perm_eq ?_ hperm hs₁ hs₂
  intro a ha b hb hab hba
  have ha' : a ∈ l₁ := (l₁.mergeSort_perm defaultSortLE).subset ha
  have hb' : b ∈ l₁ := (l₁.mergeSort_perm defaultSortLE).subset hb
  have henc : a.sortEnc = b.sortEnc := by
    have h1 : a.sortEnc ≤ b.sortEnc := of_decide_eq_true hab
    have h2 : b.sortEnc ≤ a.sortEnc := of_decide_eq_true hba
    exact le_antisymm h1 h2
  obtain ⟨hst, hk⟩ := sortEnc_eq henc
  exact hties a ha' b hb' hst hk

/-- Witness for C6: two arrangements of the same two flows (distinct start
times) sort identically, and the result is ordered. -/
theorem default_sort_deterministic_witness :
    defaultSort [Flow.mk sampleKey 0 15 ⟨0, 0, 0, 0, 0, 0, 0⟩,
        Flow.mk sampleKey 15 30 ⟨0, 0, 0, 0, 0, 0, 0⟩]
        = defaultSort [Flow.mk sampleKey 15 30 ⟨0, 0, 0, 0, 0, 0, 0⟩,
          Flow.mk sampleKey 0 15 ⟨0, 0, 0, 0, 0, 0, 0⟩] ∧
      List.Pairwise (fun a b => defaultSortLE a b = true)
        (defaultSort [Flow.mk sampleKey 0 15 ⟨0, 0, 0, 0, 0, 0, 0⟩,
          Flow.mk sampleKey 15 30 ⟨0, 0, 0, 0, 0, 0, 0⟩]) :=
  default_sort_deterministic
    [Flow.mk sampleKey 0 15 ⟨0, 0, 0, 0, 0, 0, 0⟩,
      Flow.mk sampleKey 15 30 ⟨0, 0, 0, 0, 0, 0, 0⟩]
    [Flow.mk sampleKey 15 30 ⟨0, 0, 0, 0, 0, 0, 0⟩,
      Flow.mk sampleKey 0 15 ⟨0, 0, 0, 0, 0, 0, 0⟩]
    (by decide) (by decide)

end Goldmane
